import Mathlib

/-!
Verification of the DeepVariant pileup-image construction pipeline
(`alt_aligned_pileup_lib.h`, `make_examples_native.h`).

The repository ships only the header files: every function body
(`TrimCigar`, `AltAlleleCombinations`, `CreateHaplotype`,
`FillPileupArray`, `InMemoryReader::Query`, `WriteExamplesInRegion`)
lives in the corresponding `.cc` files, which are not part of the
source tree given here.  Each operation is therefore modelled from the
specification's contract for it (sections 3, 4 and 8 of the spec), and
the claims are settled against those models.

Conventions: machine `int64_t` coordinates become `Int`, lengths and
sizes become `Nat`, byte buffers become `List Nat`, DNA sequences
become `List Char`.  All definitions are executable.
-/

/-- CIGAR operation kinds, as in `nucleus.genomics.v1.CigarUnit`. -/
inductive CigarOperation where
  | MATCH
  | INSERT
  | DELETE
  | SKIP
  | SOFT_CLIP
  | HARD_CLIP
  | PAD
  | MISMATCH
deriving DecidableEq

/-- One CIGAR operation with its length. -/
structure CigarUnit where
  operation : CigarOperation
  length : Nat
deriving DecidableEq

/-- Operations that consume reference bases: MATCH, MISMATCH, DELETE, SKIP. -/
def consumesRef : CigarOperation → Bool
  | CigarOperation.MATCH => true
  | CigarOperation.MISMATCH => true
  | CigarOperation.DELETE => true
  | CigarOperation.SKIP => true
  | _ => false

/-- Operations that consume read bases: MATCH, MISMATCH, INSERT, SOFT_CLIP. -/
def consumesRead : CigarOperation → Bool
  | CigarOperation.MATCH => true
  | CigarOperation.MISMATCH => true
  | CigarOperation.INSERT => true
  | CigarOperation.SOFT_CLIP => true
  | _ => false

/-- Total reference length consumed by a cigar. -/
def refConsumed : List CigarUnit → Nat
  | [] => 0
  | u :: rest => (if consumesRef u.operation then u.length else 0) + refConsumed rest

/-- Length of the intersection of the half-open integer intervals
`[a, b)` and `[c, d)`. -/
def interLen (a b c d : Int) : Nat := (min b d - max a c).toNat

/-- Result of trimming a cigar to a reference window: the trimmed cigar,
the read-coordinate offset matching the window start, and the number of
read bases retained. -/
structure TrimResult where
  new_cigar : List CigarUnit
  read_start : Int
  new_read_length : Nat
deriving DecidableEq

/-- Modelled from the spec: the body of `TrimCigar`
(`alt_aligned_pileup_lib.cc`) is not in the source tree; this is the
spec's CigarTrimmer walk (section 4.1).  It traverses the operation
list once, tracking the cumulative reference position, truncating
reference-consuming operations straddling a window boundary to their
in-window portion (type preserved), accumulating read bases consumed
before the window start (first component of the returned pair of
counters) and read bases retained inside the window (second counter).
Read-only operations are kept in full when positioned inside the
window and counted before the window otherwise. -/
def trimWalk (wstart wend : Int) (refPos : Int) :
    List CigarUnit → List CigarUnit × Nat × Nat
  | [] => ([], 0, 0)
  | u :: rest =>
    if consumesRef u.operation then
      let t := trimWalk wstart wend (refPos + (u.length : Int)) rest
      let kept := interLen refPos (refPos + (u.length : Int)) wstart wend
      ((if 0 < kept then [CigarUnit.mk u.operation kept] else []) ++ t.1,
       (if consumesRead u.operation then
          (min (refPos + (u.length : Int)) wstart - refPos).toNat else 0) + t.2.1,
       (if consumesRead u.operation then kept else 0) + t.2.2)
    else
      let t := trimWalk wstart wend refPos rest
      if refPos < wstart then
        (t.1, (if consumesRead u.operation then u.length else 0) + t.2.1, t.2.2)
      else if refPos < wend then
        (u :: t.1, t.2.1, (if consumesRead u.operation then u.length else 0) + t.2.2)
      else
        t

/-- Modelled from the spec: `TrimCigar` (section 4.1).  If the read's
reference span `[alignment_start, alignment_start + refConsumed cigar)`
does not intersect the window `[ref_start, ref_start + ref_length)`,
the no-coverage sentinel `([], -1, 0)` is returned; otherwise the trim
walk confines the cigar to the window. -/
def TrimCigar (cigar : List CigarUnit) (alignment_start ref_start ref_length : Int) :
    TrimResult :=
  if max alignment_start ref_start <
      min (alignment_start + (refConsumed cigar : Int)) (ref_start + ref_length) then
    let t := trimWalk ref_start (ref_start + ref_length) alignment_start cigar
    TrimResult.mk t.1 (t.2.1 : Int) t.2.2
  else
    TrimResult.mk [] (-1) 0

/-- `refConsumed` distributes over append. -/
lemma refConsumed_append (a b : List CigarUnit) :
    refConsumed (a ++ b) = refConsumed a + refConsumed b := by
  induction a with
  | nil => simp [refConsumed]
  | cons u rest ih => simp [refConsumed, ih]; omega

/-- The reference length consumed by the trimmed cigar is exactly the
length of the intersection of the read's reference span with the window. -/
lemma refConsumed_trimWalk (wstart wend : Int) (c : List CigarUnit) :
    ∀ refPos : Int,
      refConsumed (trimWalk wstart wend refPos c).1 =
        interLen refPos (refPos + (refConsumed c : Int)) wstart wend := by
  induction c with
  | nil =>
    intro refPos
    simp only [trimWalk, refConsumed, interLen]
    omega
  | cons u rest ih =>
    intro refPos
    by_cases hr : consumesRef u.operation
    · simp only [trimWalk, hr, if_true, refConsumed, refConsumed_append]
      have hkept : refConsumed
          (if 0 < interLen refPos (refPos + (u.length : Int)) wstart wend then
            [CigarUnit.mk u.operation (interLen refPos (refPos + (u.length : Int)) wstart wend)]
          else []) = interLen refPos (refPos + (u.length : Int)) wstart wend := by
        split
        · simp [refConsumed, hr]
        · simp [refConsumed]; omega
      rw [hkept, ih]
      simp only [interLen]
      omega
    · simp only [trimWalk, refConsumed]
      rw [if_neg hr, if_neg hr]
      by_cases h1 : refPos < wstart
      · rw [if_pos h1, ih]
        simp
      · rw [if_neg h1]
        by_cases h2 : refPos < wend
        · rw [if_pos h2]
          simp only [refConsumed]
          rw [if_neg hr, ih]
          simp
        · rw [if_neg h2, ih]
          simp

/-- Every operation of the trimmed cigar stems from an operation of the
input cigar: same type, length at most the original length. -/
lemma trimWalk_ops (wstart wend : Int) (c : List CigarUnit) :
    ∀ refPos : Int, ∀ u ∈ (trimWalk wstart wend refPos c).1,
      ∃ w ∈ c, w.operation = u.operation ∧ u.length ≤ w.length := by
  induction c with
  | nil => intro refPos u hu; simp [trimWalk] at hu
  | cons v rest ih =>
    intro refPos u hu
    by_cases hr : consumesRef v.operation
    · simp only [trimWalk, hr, if_true, List.mem_append] at hu
      rcases hu with hu | hu
      · have hlen : interLen refPos (refPos + (v.length : Int)) wstart wend ≤ v.length := by
          simp only [interLen]; omega
        rcases Decidable.em
            (0 < interLen refPos (refPos + (v.length : Int)) wstart wend) with hp | hp
        · rw [if_pos hp] at hu
          simp only [List.mem_singleton] at hu
          subst hu
          exact ⟨v, List.mem_cons_self v rest, rfl, hlen⟩
        · rw [if_neg hp] at hu
          simp at hu
      · obtain ⟨w, hw, hop, hle⟩ := ih (refPos + (v.length : Int)) u hu
        exact ⟨w, List.mem_cons_of_mem v hw, hop, hle⟩
    · simp only [trimWalk] at hu
      rw [if_neg hr] at hu
      by_cases h1 : refPos < wstart
      · rw [if_pos h1] at hu
        obtain ⟨w, hw, hop, hle⟩ := ih refPos u hu
        exact ⟨w, List.mem_cons_of_mem v hw, hop, hle⟩
      · rw [if_neg h1] at hu
        by_cases h2 : refPos < wend
        · rw [if_pos h2] at hu
          simp only [List.mem_cons] at hu
          rcases hu with hu | hu
          · subst hu
            exact ⟨u, List.mem_cons_self u rest, rfl, le_refl _⟩
          · obtain ⟨w, hw, hop, hle⟩ := ih refPos u hu
            exact ⟨w, List.mem_cons_of_mem v hw, hop, hle⟩
        · rw [if_neg h2] at hu
          obtain ⟨w, hw, hop, hle⟩ := ih refPos u hu
          exact ⟨w, List.mem_cons_of_mem v hw, hop, hle⟩

/-- Modelled from the spec: the C++ `TrimCigar` writes its results into
the out-parameters `new_cigar`, `read_start` and `new_read_length`; the
spec (section 4.1) declares the trim deterministic and side-effect-free
with the outputs a function of the inputs alone, so a call overwrites
whatever the out-parameters previously held.  `prior` is the state of
the out-parameters before the call. -/
def TrimCigarCall (cigar : List CigarUnit) (alignment_start ref_start ref_length : Int)
    (prior : TrimResult) : TrimResult :=
  TrimCigar cigar alignment_start ref_start ref_length

/-- C1: for every cigar, alignment start and reference window lying
fully inside the alignment span, the trimmed cigar's total
reference-consumed length equals the window length, and every operation
of the trimmed cigar keeps the type of an input operation with its
length truncated to at most the original. -/
theorem trimCigar_window_inside (cigar : List CigarUnit)
    (alignment_start ref_start ref_length : Int)
    (h1 : alignment_start ≤ ref_start)
    (h2 : ref_start + ref_length ≤ alignment_start + (refConsumed cigar : Int))
    (h3 : 0 ≤ ref_length) :
    ((refConsumed (TrimCigar cigar alignment_start ref_start ref_length).new_cigar : Int) =
        ref_length) ∧
      ∀ u ∈ (TrimCigar cigar alignment_start ref_start ref_length).new_cigar,
        ∃ w ∈ cigar, w.operation = u.operation ∧ u.length ≤ w.length := by
  by_cases hrl : 0 < ref_length
  · have hcond : max alignment_start ref_start <
        min (alignment_start + (refConsumed cigar : Int)) (ref_start + ref_length) := by
      omega
    simp only [TrimCigar, if_pos hcond]
    constructor
    · rw [refConsumed_trimWalk]
      simp only [interLen]
      omega
    · intro u hu
      exact trimWalk_ops ref_start (ref_start + ref_length) cigar alignment_start u hu
  · have hcond : ¬ max alignment_start ref_start <
        min (alignment_start + (refConsumed cigar : Int)) (ref_start + ref_length) := by
      omega
    simp only [TrimCigar, if_neg hcond]
    constructor
    · simp only [refConsumed]
      omega
    · intro u hu
      simp at hu

/-- Witness for C1: trimming a 10M read starting at reference 0 to the
window [2, 7) keeps exactly 5 reference bases. -/
theorem trimCigar_window_inside_witness :
    (refConsumed (TrimCigar [CigarUnit.mk CigarOperation.MATCH 10] 0 2 5).new_cigar : Int) = 5 :=
  (trimCigar_window_inside [CigarUnit.mk CigarOperation.MATCH 10] 0 2 5
    (by decide) (by decide) (by decide)).1

/-- C4: a reference window with zero overlap with the read's alignment
span makes `TrimCigar` return the no-coverage sentinel: empty cigar,
`read_start = -1`, `new_read_length = 0`. -/
theorem trimCigar_no_overlap (cigar : List CigarUnit)
    (alignment_start ref_start ref_length : Int)
    (h : min (alignment_start + (refConsumed cigar : Int)) (ref_start + ref_length) ≤
        max alignment_start ref_start) :
    TrimCigar cigar alignment_start ref_start ref_length = TrimResult.mk [] (-1) 0 := by
  simp only [TrimCigar, if_neg (not_lt.mpr h)]

/-- Witness for C4: a read of span [0, 5) trimmed to the window
[10, 13) yields the sentinel. -/
theorem trimCigar_no_overlap_witness :
    TrimCigar [CigarUnit.mk CigarOperation.MATCH 5] 0 10 3 = TrimResult.mk [] (-1) 0 :=
  trimCigar_no_overlap [CigarUnit.mk CigarOperation.MATCH 5] 0 10 3 (by decide)

/-- C10: the results of a `TrimCigar` call are a function of the inputs
`(cigar, ref_start, ref_length)` and the alignment start only; they do
not depend on the values held by the out-parameters before the call. -/
theorem trimCigarCall_ignores_prior (cigar : List CigarUnit)
    (alignment_start ref_start ref_length : Int) (prior₁ prior₂ : TrimResult) :
    TrimCigarCall cigar alignment_start ref_start ref_length prior₁ =
        TrimCigarCall cigar alignment_start ref_start ref_length prior₂ ∧
      TrimCigarCall cigar alignment_start ref_start ref_length prior₁ =
        TrimCigar cigar alignment_start ref_start ref_length :=
  ⟨rfl, rfl⟩

/-- A genomic range: half-open, 0-based (spec section 3). -/
structure Range where
  reference_name : String
  start : Int
  stop : Int
deriving DecidableEq

/-- A read: sequence, cigar and alignment start (spec section 3).
`alignment_start` is the reference coordinate of the first consuming
operation. -/
structure Read where
  sequence : List Char
  cigar : List CigarUnit
  alignment_start : Int
deriving DecidableEq

/-- End of a read's alignment on the reference (exclusive). -/
def alignmentEnd (r : Read) : Int := r.alignment_start + (refConsumed r.cigar : Int)

/-- Whether `[alignment_start, alignment_end)` intersects the range. -/
def overlapsRange (r : Read) (q : Range) : Bool :=
  max r.alignment_start q.start < min (alignmentEnd r) q.stop

/-- Modelled from the spec: the body of `InMemoryReader::Query`
(`make_examples_native.cc`) is not in the source tree; this is the
spec's ReadIndex contract (section 4.2): the reads of the batch whose
`[alignment_start, alignment_end)` intersects the range, in the batch's
natural order. -/
def Query (reads : List Read) (q : Range) : List Read :=
  reads.filter (fun r => overlapsRange r q)

/-- C7: `Query` returns exactly the batch reads overlapping the range,
keeps the batch order (so ascending alignment start when the batch is
so ordered), and a range entirely past every read's alignment end
yields the empty list, not an error. -/
theorem inMemoryReader_query_spec (reads : List Read) (q : Range)
    (hsorted : List.Pairwise (fun a b => a.alignment_start ≤ b.alignment_start) reads) :
    (Query reads q).Sublist reads ∧
      (∀ r, r ∈ Query reads q ↔ r ∈ reads ∧ overlapsRange r q = true) ∧
      List.Pairwise (fun a b => a.alignment_start ≤ b.alignment_start) (Query reads q) ∧
      ((∀ r ∈ reads, alignmentEnd r ≤ q.start) → Query reads q = []) := by
  refine ⟨List.filter_sublist reads, ?_, ?_, ?_⟩
  · intro r
    exact List.mem_filter
  · exact List.Pairwise.sublist (List.filter_sublist reads) hsorted
  · intro hpast
    rw [Query, List.filter_eq_nil_iff]
    intro r hr
    have := hpast r hr
    simp only [overlapsRange, decide_eq_true_eq]
    omega

/-- Witness for C7: a window entirely past the single read's alignment
end returns no reads. -/
theorem inMemoryReader_query_spec_witness :
    Query [Read.mk ['A'] [CigarUnit.mk CigarOperation.MATCH 1] 0]
        (Range.mk "chr1" 5 9) = [] :=
  ((inMemoryReader_query_spec [Read.mk ['A'] [CigarUnit.mk CigarOperation.MATCH 1] 0]
    (Range.mk "chr1" 5 9) (by decide)).2.2.2) (by decide)

/-- A variant: contig, 0-based position, reference bases and ordered
alternate alleles (spec section 3). -/
structure Variant where
  reference_name : String
  position : Nat
  reference_bases : List Char
  alternate_alleles : List (List Char)
deriving DecidableEq

/-- The configured multi-allelic handling: render every alternate
allele individually, or additionally render heterozygous-alt pairs
(spec section 4.4: "every alt individually, or pairs, depending on
configuration"). -/
inductive MultiAllelicMode where
  | noHetAltImages
  | addHetAltImages
deriving DecidableEq

/-- Index-level enumeration of the allele combinations: each
combination is the list of (0-based) alternate-allele indices it
renders.  Ordered ascending by allele index, then by combination size
(spec section 4.4). -/
def combosIdx : MultiAllelicMode → Nat → List (List Nat)
  | MultiAllelicMode.noHetAltImages, n => (List.range n).map (fun i => [i])
  | MultiAllelicMode.addHetAltImages, n =>
    (List.range n).flatMap (fun i =>
      [i] :: (List.range' (i + 1) (n - (i + 1))).map (fun j => [i, j]))

/-- Modelled from the spec: the body of
`ExamplesGenerator::AltAlleleCombinations` (`make_examples_native.cc`)
is not in the source tree; this is the spec's
AlleleCombinationEnumerator (section 4.4): the deterministic ordered
sequence of alt-allele groupings, each naming one or more alternate
alleles. -/
def AltAlleleCombinations (mode : MultiAllelicMode) (v : Variant) :
    List (List (List Char)) :=
  (combosIdx mode v.alternate_alleles.length).map
    (fun comb => comb.map (fun i => v.alternate_alleles.getD i []))

/-- Enumeration order on index-level combinations: ascending by first
allele index, then by combination size. -/
def combLE (c c' : List Nat) : Prop :=
  c.headD 0 < c'.headD 0 ∨ (c.headD 0 = c'.headD 0 ∧ c.length ≤ c'.length)

instance (c c' : List Nat) : Decidable (combLE c c') := by
  unfold combLE; infer_instance

/-- Elements of the addHetAltImages block for allele index `i`. -/
lemma mem_hetBlock {i m : Nat} {x : List Nat}
    (hx : x ∈ [i] :: (List.range' (i + 1) m).map (fun j => [i, j])) :
    x.headD 0 = i ∧ 1 ≤ x.length ∧ x.length ≤ 2 := by
  simp only [List.mem_cons, List.mem_map] at hx
  rcases hx with rfl | ⟨j, _, rfl⟩
  · exact ⟨rfl, by simp, by simp⟩
  · exact ⟨rfl, by simp, by simp⟩

/-- C2: a biallelic site (exactly one alternate allele) yields exactly
one combination, the singleton of that allele, in both configurations. -/
theorem altAlleleCombinations_biallelic (mode : MultiAllelicMode) (v : Variant)
    (a : List Char) (h : v.alternate_alleles = [a]) :
    AltAlleleCombinations mode v = [[a]] := by
  cases mode <;>
    simp [AltAlleleCombinations, combosIdx, h, List.range_succ]

/-- Witness for C2: a biallelic SNP site yields the single singleton
combination in both configurations. -/
theorem altAlleleCombinations_biallelic_witness :
    AltAlleleCombinations MultiAllelicMode.addHetAltImages
        (Variant.mk "chr1" 7 ['A'] [['C']]) = [[['C']]] :=
  altAlleleCombinations_biallelic MultiAllelicMode.addHetAltImages
    (Variant.mk "chr1" 7 ['A'] [['C']]) ['C'] (by decide)

/-- C8: `AltAlleleCombinations` is deterministic — it is a function of
the variant, so two invocations agree — and its generating index-level
enumeration is ordered ascending by allele index, then by combination
size. -/
theorem altAlleleCombinations_deterministic_ordered (mode : MultiAllelicMode) (v : Variant) :
    AltAlleleCombinations mode v = AltAlleleCombinations mode v ∧
      List.Pairwise combLE (combosIdx mode v.alternate_alleles.length) := by
  refine ⟨rfl, ?_⟩
  cases mode
  · rw [combosIdx, List.pairwise_map]
    exact (List.pairwise_lt_range _).imp (fun hij => Or.inl hij)
  · rw [combosIdx, List.pairwise_flatMap]
    constructor
    · intro i _
      constructor
      · intro y hy
        obtain ⟨hh, h1, _⟩ := mem_hetBlock (List.mem_cons_of_mem _ hy)
        exact Or.inr ⟨hh.symm, by simpa using h1⟩
      · rw [List.pairwise_map]
        refine List.Pairwise.imp ?_ (List.pairwise_lt_range' _ _)
        intro j j' _
        exact Or.inr ⟨rfl, by simp⟩
    · refine (List.pairwise_lt_range _).imp ?_
      intro i i' hii x hx y hy
      obtain ⟨hxh, _, _⟩ := mem_hetBlock hx
      obtain ⟨hyh, _, _⟩ := mem_hetBlock hy
      exact Or.inl (by rw [hxh, hyh]; exact hii)

/-- A haplotype: the synthesized sequence and the reference interval it
represents (spec section 3).  `ref_end - ref_start` need not equal
`sequence.length` for an indel allele. -/
structure Haplotype where
  sequence : List Char
  ref_start : Nat
  ref_end : Nat
deriving DecidableEq

/-- Reference-lookup collaborator (spec section 6): the bases of the
contig in the half-open interval `[s, e)`. -/
def GetReferenceBases (contig : List Char) (s e : Nat) : List Char :=
  (contig.drop s).take (e - s)

/-- Length of the left flank: half of the needed flank total `F`, the
odd remainder going to the right flank; a flank that would run past a
contig bound is shrunk and the other side grown (spec section 4.3). -/
def leftFlankLen (F leftAvail rightAvail : Nat) : Nat :=
  if F / 2 ≤ leftAvail then
    (if F - F / 2 ≤ rightAvail then F / 2 else F - rightAvail)
  else leftAvail

/-- Modelled from the spec: the body of
`ExamplesGenerator::CreateHaplotype` (`make_examples_native.cc`) is not
in the source tree; this is the spec's HaplotypeBuilder (section 4.3).
The pileup width is `2 * half_width + width_adjustment`; the haplotype
is left reference flank ++ allele ++ right reference flank, the flank
lengths chosen so the total equals the width exactly, the odd remainder
going to the right flank; when the contig is too short for the window,
`none` (the OutOfBoundsError of section 7) is returned. -/
def CreateHaplotype (contig : List Char) (v : Variant) (alt : List Char)
    (half_width width_adjustment : Nat) : Option Haplotype :=
  let W := 2 * half_width + width_adjustment
  let p := v.position
  let refEnd := p + v.reference_bases.length
  if alt.length ≤ W ∧ refEnd ≤ contig.length ∧
      W - alt.length ≤ p + (contig.length - refEnd) then
    let F := W - alt.length
    let leftLen := leftFlankLen F p (contig.length - refEnd)
    let rightLen := F - leftLen
    some (Haplotype.mk
      (GetReferenceBases contig (p - leftLen) p ++ alt ++
        GetReferenceBases contig refEnd (refEnd + rightLen))
      (p - leftLen) (refEnd + rightLen))
  else
    none

/-- The chosen left flank respects both availabilities. -/
lemma leftFlankLen_bounds (F leftAvail rightAvail : Nat)
    (h : F ≤ leftAvail + rightAvail) :
    leftFlankLen F leftAvail rightAvail ≤ leftAvail ∧
      leftFlankLen F leftAvail rightAvail ≤ F ∧
      F - leftFlankLen F leftAvail rightAvail ≤ rightAvail := by
  unfold leftFlankLen
  split
  · split <;> omega
  · omega

/-- C3: every haplotype returned by `CreateHaplotype` has length
exactly the configured pileup width `2 * half_width +
width_adjustment`, whatever the allele's length delta versus the
reference bases (SNP, insertion or deletion). -/
theorem createHaplotype_length (contig : List Char) (v : Variant) (alt : List Char)
    (half_width width_adjustment : Nat) (hap : Haplotype)
    (h : CreateHaplotype contig v alt half_width width_adjustment = some hap) :
    hap.sequence.length = 2 * half_width + width_adjustment := by
  unfold CreateHaplotype at h
  dsimp only at h
  split at h
  · next hc =>
    obtain ⟨ha, hre, hfit⟩ := hc
    obtain ⟨hl1, hl2, hl3⟩ :=
      leftFlankLen_bounds (2 * half_width + width_adjustment - alt.length)
        v.position (contig.length - (v.position + v.reference_bases.length))
        (by omega)
    injection h with h
    subst h
    simp only [List.length_append, GetReferenceBases, List.length_take, List.length_drop]
    omega
  · exact absurd h (by simp)

/-- Witness for C3: a SNP at position 5 of a 10-base contig with
`half_width = 2` and `width_adjustment = 1` gives a 5-base haplotype. -/
theorem createHaplotype_length_witness :
    (Haplotype.mk ['A', 'A', 'C', 'A', 'A'] 3 8).sequence.length = 2 * 2 + 1 :=
  createHaplotype_length (List.replicate 10 'A') (Variant.mk "chr1" 5 ['A'] [['C']]) ['C']
    2 1 (Haplotype.mk ['A', 'A', 'C', 'A', 'A'] 3 8) (by decide)

/-- Fixed pileup configuration: image width, height, channel count and
the defined "no coverage" byte value (spec sections 3 and 4.6). -/
structure PileupConfig where
  width : Nat
  height : Nat
  channels : Nat
  noCov : Nat
deriving DecidableEq

/-- One image row: per column, the list of channel byte values of that
pixel (spec section 3, ImageRow). -/
abbrev ImageRow := List (List Nat)

/-- The alt-aligned layering modes, as in `make_examples_native.h`. -/
inductive AltAlignedPileup where
  | kNone
  | kBaseChannels
  | kDiffChannels
  | kRows
deriving DecidableEq

/-- Channel value of row `r`, column `c`, channel `k` of a row set;
uncovered rows, columns or channels yield the no-coverage value. -/
def channelValue (cfg : PileupConfig) (rows : List ImageRow) (r c k : Nat) : Nat :=
  ((rows.getD r []).getD c []).getD k cfg.noCov

/-- The channel bytes of one pixel. -/
def renderPixel (cfg : PileupConfig) (rows : List ImageRow) (r c : Nat) : List Nat :=
  (List.range cfg.channels).map (channelValue cfg rows r c)

/-- One full row group: `height` rows of `width` pixels of `channels`
bytes, uncovered cells filled with the no-coverage value. -/
def renderRows (cfg : PileupConfig) (rows : List ImageRow) : List Nat :=
  (List.range cfg.height).flatMap (fun r =>
    (List.range cfg.width).flatMap (fun c => renderPixel cfg rows r c))

/-- Divergence channel bytes of one pixel of an alt row set versus the
reference row set (spec section 4.6, DIFF_CHANNELS). -/
def diffPixel (cfg : PileupConfig) (refRows altRows : List ImageRow) (r c : Nat) : List Nat :=
  (List.range cfg.channels).map (fun k =>
    if channelValue cfg altRows r c k = channelValue cfg refRows r c k then 0 else 255)

/-- Number of row groups (or per-pixel channel blocks) the layering
mode lays out: the reference block alone for NONE, the reference block
plus two alt-aligned blocks otherwise. -/
def groupCount : AltAlignedPileup → Nat
  | AltAlignedPileup.kNone => 1
  | AltAlignedPileup.kBaseChannels => 3
  | AltAlignedPileup.kDiffChannels => 3
  | AltAlignedPileup.kRows => 3

/-- The fixed byte size of the assembled pileup array:
width × height × channel count × row groups (spec section 3,
PileupArray). -/
def arraySize (cfg : PileupConfig) (mode : AltAlignedPileup) : Nat :=
  cfg.width * cfg.height * cfg.channels * groupCount mode

/-- Modelled from the spec: the body of `FillPileupArray`
(`make_examples_native.cc`) is not in the source tree; this is the
spec's PileupArrayAssembler (section 4.6).  NONE encodes only the
reference-aligned rows; BASE_CHANNELS appends the alt rows' channels
per pixel; DIFF_CHANNELS appends per-pixel divergence channels; ROWS
appends the alt row groups below the reference block.  Cells without
coverage are filled with the configured no-coverage value, never
omitted. -/
def FillPileupArray (cfg : PileupConfig) (mode : AltAlignedPileup)
    (image : List ImageRow) (alt_image : List (List ImageRow)) : List Nat :=
  match mode with
  | AltAlignedPileup.kNone => renderRows cfg image
  | AltAlignedPileup.kBaseChannels =>
    (List.range cfg.height).flatMap (fun r =>
      (List.range cfg.width).flatMap (fun c =>
        renderPixel cfg image r c ++ renderPixel cfg (alt_image.getD 0 []) r c ++
          renderPixel cfg (alt_image.getD 1 []) r c))
  | AltAlignedPileup.kDiffChannels =>
    (List.range cfg.height).flatMap (fun r =>
      (List.range cfg.width).flatMap (fun c =>
        renderPixel cfg image r c ++ diffPixel cfg image (alt_image.getD 0 []) r c ++
          diffPixel cfg image (alt_image.getD 1 []) r c))
  | AltAlignedPileup.kRows =>
    renderRows cfg image ++ renderRows cfg (alt_image.getD 0 []) ++
      renderRows cfg (alt_image.getD 1 [])

/-- Length of a `flatMap` whose blocks all have the same length. -/
lemma length_flatMap_const {α β : Type} (l : List α) (f : α → List β) (m : Nat)
    (h : ∀ a ∈ l, (f a).length = m) : (l.flatMap f).length = l.length * m := by
  induction l with
  | nil => simp
  | cons a rest ih =>
    rw [List.flatMap_cons, List.length_append, h a (List.mem_cons_self a rest),
      ih (fun b hb => h b (List.mem_cons_of_mem a hb))]
    simp [Nat.succ_mul]
    omega

/-- A `flatMap` of constant replicated blocks is a replicate. -/
lemma flatMap_replicate_const {α β : Type} (l : List α) (m : Nat) (x : β) :
    (l.flatMap (fun _ => List.replicate m x)) = List.replicate (l.length * m) x := by
  induction l with
  | nil => simp
  | cons a rest ih =>
    rw [List.flatMap_cons, ih, ← List.replicate_add]
    congr 1
    simp [List.length_cons]
    ring

/-- `renderPixel` always yields `channels` bytes. -/
lemma length_renderPixel (cfg : PileupConfig) (rows : List ImageRow) (r c : Nat) :
    (renderPixel cfg rows r c).length = cfg.channels := by
  simp [renderPixel]

/-- `renderRows` always yields `height * width * channels` bytes. -/
lemma length_renderRows (cfg : PileupConfig) (rows : List ImageRow) :
    (renderRows cfg rows).length = cfg.height * (cfg.width * cfg.channels) := by
  rw [renderRows, length_flatMap_const _ _ (cfg.width * cfg.channels)]
  · simp
  · intro r _
    rw [length_flatMap_const _ _ cfg.channels]
    · simp
    · intro c _
      exact length_renderPixel cfg rows r c

/-- With no rows at all, every rendered pixel is no-coverage bytes. -/
lemma renderPixel_empty (cfg : PileupConfig) (r c : Nat) :
    renderPixel cfg [] r c = List.replicate cfg.channels cfg.noCov := by
  rw [renderPixel]
  have : channelValue cfg [] r c = fun _ => cfg.noCov := by
    funext k
    simp [channelValue]
  rw [this]
  exact List.map_const (List.range cfg.channels) cfg.noCov |>.trans (by simp)

/-- C5: for a fixed configuration and layering mode the assembled
pileup array has the same constant byte length for every input row set,
regardless of read depth; and an entirely uncovered candidate is filled
with the no-coverage value rather than truncated. -/
theorem fillPileupArray_constant_size (cfg : PileupConfig) (mode : AltAlignedPileup)
    (image : List ImageRow) (alt_image : List (List ImageRow)) :
    (FillPileupArray cfg mode image alt_image).length = arraySize cfg mode ∧
      FillPileupArray cfg AltAlignedPileup.kNone [] [] =
        List.replicate (arraySize cfg AltAlignedPileup.kNone) cfg.noCov := by
  constructor
  · cases mode
    · rw [FillPileupArray, length_renderRows, arraySize, groupCount]
      ring
    · rw [FillPileupArray, length_flatMap_const _ _ (cfg.width * (3 * cfg.channels))]
      · rw [arraySize, groupCount]
        simp only [List.length_range]
        ring
      · intro r _
        rw [length_flatMap_const _ _ (3 * cfg.channels)]
        · simp
        · intro c _
          simp only [List.length_append, length_renderPixel]
          ring
    · rw [FillPileupArray, length_flatMap_const _ _ (cfg.width * (3 * cfg.channels))]
      · rw [arraySize, groupCount]
        simp only [List.length_range]
        ring
      · intro r _
        rw [length_flatMap_const _ _ (3 * cfg.channels)]
        · simp
        · intro c _
          simp only [List.length_append, length_renderPixel, diffPixel, List.length_map,
            List.length_range]
          ring
    · rw [FillPileupArray]
      simp only [List.length_append, length_renderRows, arraySize, groupCount]
      ring
  · rw [FillPileupArray, renderRows]
    have hpix : ∀ r c : Nat, renderPixel cfg ([] : List ImageRow) r c =
        List.replicate cfg.channels cfg.noCov := renderPixel_empty cfg
    calc (List.range cfg.height).flatMap (fun r =>
          (List.range cfg.width).flatMap (fun c => renderPixel cfg [] r c))
        = (List.range cfg.height).flatMap (fun _ =>
            List.replicate (cfg.width * cfg.channels) cfg.noCov) := by
          apply List.flatMap_congr
          intro r _
          calc (List.range cfg.width).flatMap (fun c => renderPixel cfg [] r c)
              = (List.range cfg.width).flatMap (fun _ =>
                  List.replicate cfg.channels cfg.noCov) := by
                apply List.flatMap_congr
                intro c _
                exact hpix r c
            _ = List.replicate (cfg.width * cfg.channels) cfg.noCov := by
                rw [flatMap_replicate_const]
                simp
      _ = List.replicate (arraySize cfg AltAlignedPileup.kNone) cfg.noCov := by
          rw [flatMap_replicate_const]
          simp only [List.length_range]
          congr 1
          rw [arraySize, groupCount]
          ring

/-- C9: with layering mode NONE the assembled array depends only on
the reference-aligned rows; the alt rows are ignored. -/
theorem fillPileupArray_kNone_ignores_alt (cfg : PileupConfig) (image : List ImageRow)
    (alt_image₁ alt_image₂ : List (List ImageRow)) :
    FillPileupArray cfg AltAlignedPileup.kNone image alt_image₁ =
      FillPileupArray cfg AltAlignedPileup.kNone image alt_image₂ := rfl

/-- The per-candidate failures of the error taxonomy (spec section 7)
that abort a single candidate. -/
inductive CandidateFailure where
  | outOfBounds
  | malformedAlignment
  | referenceLookup
deriving DecidableEq

/-- Modelled from the spec: the bodies of
`ExamplesGenerator::WriteExamplesInRegion` and
`CreateAndWriteExamplesForCandidate` (`make_examples_native.cc`) are
not in the source tree; this is the spec's ExampleDriver loop (sections
4.7 and 7).  `process` is the per-candidate pipeline (haplotype
synthesis, trimming, encoding, serialization), which either yields the
candidate's serialized examples or fails with a per-candidate error.
The driver appends the examples of each succeeding candidate in order;
a failing candidate contributes no examples, is recorded with its
identity for the caller, and processing continues with the remaining
candidates. -/
def WriteExamplesInRegion {α ε β : Type} (process : α → Except ε (List β)) :
    List α → List β × List (α × ε)
  | [] => ([], [])
  | c :: rest =>
    let t := WriteExamplesInRegion process rest
    match process c with
    | Except.ok ex => (ex ++ t.1, t.2)
    | Except.error e => (t.1, (c, e) :: t.2)

/-- The driver's output splits over a split of the candidate batch. -/
lemma writeExamplesInRegion_append {α ε β : Type} (process : α → Except ε (List β))
    (l₁ l₂ : List α) :
    (WriteExamplesInRegion process (l₁ ++ l₂)).1 =
      (WriteExamplesInRegion process l₁).1 ++ (WriteExamplesInRegion process l₂).1 := by
  induction l₁ with
  | nil => simp [WriteExamplesInRegion]
  | cons c rest ih =>
    simp only [List.cons_append, WriteExamplesInRegion]
    cases process c <;> simp [ih]

/-- C6: a candidate failing with a per-candidate error (out-of-bounds
haplotype, malformed cigar, reference lookup error) contributes no
example, the failure is reported with the candidate's identity, and
every other candidate of the batch is still processed: the emitted
examples are exactly those of the batch without the failing candidate. -/
theorem writeExamplesInRegion_isolates_failure {α ε β : Type}
    (process : α → Except ε (List β)) (pre post : List α) (c : α) (e : ε)
    (h : process c = Except.error e) :
    (WriteExamplesInRegion process (pre ++ c :: post)).1 =
        (WriteExamplesInRegion process pre).1 ++
          (WriteExamplesInRegion process post).1 ∧
      (c, e) ∈ (WriteExamplesInRegion process (pre ++ c :: post)).2 := by
  constructor
  · rw [writeExamplesInRegion_append]
    congr 1
    simp only [WriteExamplesInRegion, h]
  · induction pre with
    | nil =>
      simp only [List.nil_append, WriteExamplesInRegion, h]
      exact List.mem_cons_self _ _
    | cons d rest ih =>
      simp only [List.cons_append, WriteExamplesInRegion]
      rcases process d with e' | ex
      · exact List.mem_cons_of_mem _ ih
      · exact ih

/-- A concrete per-candidate pipeline stub for the C6 witness: the
candidate `0` fails with a malformed alignment, any other candidate
`n` serializes to the single example `[n]`. -/
def processStub (n : Nat) : Except CandidateFailure (List Nat) :=
  if n = 0 then Except.error CandidateFailure.malformedAlignment else Except.ok [n]

/-- Witness for C6: in the batch `[1, 0, 2]` the failing candidate `0`
is skipped and reported while candidates `1` and `2` still emit. -/
theorem writeExamplesInRegion_isolates_failure_witness :
    (WriteExamplesInRegion processStub ([1] ++ 0 :: [2])).1 =
        (WriteExamplesInRegion processStub [1]).1 ++
          (WriteExamplesInRegion processStub [2]).1 ∧
      ((0 : Nat), CandidateFailure.malformedAlignment) ∈
        (WriteExamplesInRegion processStub ([1] ++ 0 :: [2])).2 :=
  writeExamplesInRegion_isolates_failure processStub [1] [2] 0
    CandidateFailure.malformedAlignment rfl
